import Mathlib

/-!
# giv: method views and struct views

A shallow embedding of `giv/methview.go` and of `StructView.ConfigStructGrid`
from `giv/structview.go`.

Conventions of the embedding

* A Go `interface{}` holding a property value is a `PropVal`; `ki.Props` (a map)
  is an association list whose order is the order in which `range` visits the
  keys, `ki.PropSlice` is a list of `(Name, Value)` pairs.
* A value handed to the method-view functions is seen through reflection only:
  `Option RType`, `none` being a nil interface.
* `log.Printf` output is returned by every function as the list of lines it wrote.
* Functions that mutate a widget through a pointer return the updated widget.
* The window argument `win` is only ever used as the receiver of signal
  connections and is taken to be non-nil, as `StructView.ConfigToolbar` ensures.
-/

namespace Giv

/-! ## Strings -/

/-- Go `strings.HasPrefix(s, pre)`. -/
def HasPrefix (s pre : String) : Bool := pre.data.isPrefixOf s.data

/-! ## Property values (package `ki`) -/

/-- The dynamic values found in type properties: `ki.BlankProp{}`, a Go string,
a `ki.Props` map, a `ki.PropSlice`, or a value of any other dynamic type. In
`props` and `slice` a pair is `(Name, Value)` of a `ki.PropStruct`, respectively
`(key, value)` of the map. -/
inductive PropVal where
  | blank
  | str (s : String)
  | props (p : List (String × PropVal))
  | slice (p : List (String × PropVal))
  | other (repr : String)

/-- Go `ki.PropSlice`: ordered list of `ki.PropStruct{Name, Value}`. -/
abbrev PropSlice := List (String × PropVal)

/-- Go `ki.Props`: `map[string]interface{}`, in iteration order. -/
abbrev Props := List (String × PropVal)

/-- Go map index `props[key]` with the comma-ok form. -/
def Props.get (p : Props) (key : String) : Option PropVal := List.lookup key p

/-- Go `ki.SliceProps(pr, key)`: the value under `key` when it is a
`ki.PropSlice`, otherwise not ok. -/
def SliceProps (pr : Props) (key : String) : Option PropSlice :=
  match Props.get pr key with
  | some (PropVal.slice sp) => some sp
  | _ => none

/-! ## Reflection -/

/-- A `reflect.Method` as far as the method views use it: its name, the input
types of its function type (receiver first, so `NumIn = In.length`), the
element type of the final parameter when the function is variadic (`none`
when `IsVariadic()` is false), the string forms of the values a call
returns, and whether `reflect.ValueOf(val).MethodByName(Name)` is a usable
(non-zero, non-nil) function value. -/
structure Method where
  Name : String
  In : List String
  VariadicElem : Option String
  Out : List String
  ValueOK : Bool

/-- Go `mtyp.NumIn()`. -/
def Method.NumIn (m : Method) : Int := (m.In.length : Int)

/-- What reflection and the type registry say about a non-nil value:
`vtyp.String()`, the method set, `kit.NonPtrType(vtyp).String()`, the field
names of the non-pointer type and
`kit.Types.Properties(kit.NonPtrType(vtyp), false)` (`none` when nil). -/
structure RType where
  Name : String
  Methods : List Method
  NonPtrName : String
  Fields : List String
  Props : Option Props

/-- Go `vtyp.MethodByName(name)`. -/
def RType.MethodByName (t : RType) (name : String) : Option Method :=
  t.Methods.find? (fun m => m.Name == name)

/-! ## Logging -/

/-- The messages built with `fmt.Sprintf` at the logging sites, by site. -/
inductive Msg where
  | editSpecial (ms : String)
  | methNotFound (methNm : String)
  | methNotValid (methNm : String)
  | argsNotSlice (methNm : String)
  | argsCount (meth : String) (takes : Int) (has : Int)
  | fileViewNotProps (methNm : String)
  | fieldNotFound (field : String) (typ : String)
  deriving DecidableEq, Repr

/-- One `log.Printf` line: written by `MethViewErr` with or without the type,
or written directly. -/
inductive LogEntry where
  | typed (vtyp : String) (msg : Msg)
  | untyped (msg : Msg)
  | direct (msg : Msg)
  deriving DecidableEq, Repr

/-- Go `MethViewErr`: the error logging function of the method-view system. -/
def MethViewErr (vtyp : Option RType) (msg : Msg) : List LogEntry :=
  match vtyp with
  | some t => [LogEntry.typed t.Name msg]
  | none => [LogEntry.untyped msg]

/-! ## Method-view data and widgets -/

/-- Go `MethViewFlags`: bit positions of the flags. -/
def MethViewConfirm : Nat := 0

/-- Bit position of `MethViewUpdateAfter`. -/
def MethViewUpdateAfter : Nat := 1

/-- Bit position of `MethViewFullUpdateAfter`. -/
def MethViewFullUpdateAfter : Nat := 2

/-- Bit position of `MethViewShowReturn`. -/
def MethViewShowReturn : Nat := 3

/-- Go `bitflag.Set32(&bits, flag)`: `bits |= 1 << flag`. -/
def Set32 (bits : Nat) (flag : Nat) : Nat := bits ||| (1 <<< flag)

/-- Go `bitflag.Has32(bits, flag)`: `bits & (1 << flag) != 0`. -/
def Has32 (bits : Nat) (flag : Nat) : Bool := (bits &&& (1 <<< flag)) != 0

/-- Go `MethViewData`: what an action needs to call the method. `Val` stands
for `Val`/`ValVal`, `MethTyp` for `MethTyp`/`MethVal`; `ArgProps` and
`SpecProps` are `none` when nil; `Flags` is the bit pattern of the int32. -/
structure MethViewData where
  Val : RType
  Method : String
  MethTyp : Giv.Method
  ArgProps : Option PropSlice
  SpecProps : Option Props
  Desc : String
  Flags : Nat

/-- The receiver functions connected to an action signal. -/
inductive Slot where
  | closeReq
  | methViewCall
  | methFileView
  deriving DecidableEq, Repr

/-- A `gi.Node2D` held in a menu or as a toolbar child: a `gi.Separator` or a
`gi.Action` (with its own menu). -/
inductive Node where
  | separator (Nm : String) (Horiz : Bool)
  | action (Nm Text Shortcut : String) (AsMenu : Bool) (Menu : List Node)
      (Data : Option MethViewData) (ActionSig : List Slot)

/-- Go `gi.Action` as far as the method views touch it. -/
structure Action where
  Nm : String
  Text : String
  Shortcut : String
  AsMenu : Bool
  Menu : List Node
  Data : Option MethViewData
  ActionSig : List Slot

/-- The action as a `gi.Node2D` (`nac.This.(gi.Node2D)`). -/
def Action.toNode (a : Action) : Node :=
  Node.action a.Nm a.Text a.Shortcut a.AsMenu a.Menu a.Data a.ActionSig

/-- Go `Nm` of a node. -/
def Node.Nm : Node → String
  | Node.separator nm _ => nm
  | Node.action nm _ _ _ _ _ _ => nm

/-- Whether the node is a `*gi.Action`. -/
def Node.isAction : Node → Bool
  | Node.separator _ _ => false
  | Node.action _ _ _ _ _ _ _ => true

/-- The menu of an action node (empty for a separator). -/
def Node.Menu : Node → List Node
  | Node.separator _ _ => []
  | Node.action _ _ _ _ m _ _ => m

/-- A zero `gi.Action` after `InitName(name)`. -/
def NewAction (name : String) : Action :=
  { Nm := name, Text := "", Shortcut := "", AsMenu := false, Menu := [],
    Data := none, ActionSig := [] }

/-- Go `nac.SetAsMenu()`. -/
def Action.SetAsMenu (a : Action) : Action := { a with AsMenu := true }

/-- What the code takes from outside the three source files: the application
name (`oswin.TheApp.Name()`), the text derived from an action name
(`strings.Replace(strings.Join(camelcase.Split(nm), " "), "  ", " ", -1)`),
`kit.ToString`, assignability between two distinct types named by their
string forms (`reflect.Type.AssignableTo`), the signal number
`int64(gi.DialogAccepted)`, the items that `Menu.AddAppMenu` and
`Menu.AddCopyCutPaste` append, and the orientation that `Menu.AddSeparator`
gives its separator. -/
structure Env where
  AppName : String
  CamelText : String → String
  ToString : PropVal → String
  AssignableTo : String → String → Bool
  DialogAccepted : Int
  AppMenu : List Node
  CopyCutPaste : List Node
  MenuSepHoriz : Bool

/-- Modelled from the spec: `gi.Menu.AddSeparator` is not under src/; it
appends one separator item carrying the given name to the menu. -/
def AddSeparator (env : Env) (m : List Node) (name : String) : List Node :=
  m ++ [Node.separator name env.MenuSepHoriz]

/-! ## ActionViewArgsValidate and ActionView -/

/-- Go `ActionViewArgsValidate`: validates the Args properties relative to the
number of args of the method type; the result and the lines logged. -/
def ActionViewArgsValidate (vtyp : RType) (meth : Method) (argprops : PropSlice) :
    Bool × List LogEntry :=
  let narg : Int := meth.NumIn
  let apsz : Int := (argprops.length : Int)
  if narg - 1 ≠ apsz then
    (false, MethViewErr (some vtyp) (Msg.argsCount meth.Name (narg - 1) apsz))
  else
    (true, [])

/-- What `ActionView` leaves behind: the action, the returned flag, the log. -/
structure ActionRes where
  ac : Action
  rval : Bool
  log : List LogEntry

/-- State of the `range props` loop of `ActionView`. -/
structure ActionLoop where
  ac : Action
  md : MethViewData
  rval : Bool
  log : List LogEntry

/-- One iteration of `for pk, pv := range props` in `ActionView`. -/
def ActionViewProp (env : Env) (vtyp : RType) (methNm : String) (methTyp : Method)
    (st : ActionLoop) (kv : String × PropVal) : ActionLoop :=
  match kv.1 with
  | "FileView" => st
  | "SliceViewSelect" => st
  | "shortcut" => { st with ac := { st.ac with Shortcut := env.ToString kv.2 } }
  | "label" => { st with ac := { st.ac with Text := env.ToString kv.2 } }
  | "desc" => { st with md := { st.md with Desc := env.ToString kv.2 } }
  | "confirm" => { st with md := { st.md with Flags := Set32 st.md.Flags MethViewConfirm } }
  | "update-after" =>
    { st with md := { st.md with Flags := Set32 st.md.Flags MethViewUpdateAfter } }
  | "full-update-after" =>
    { st with md := { st.md with Flags := Set32 st.md.Flags MethViewFullUpdateAfter } }
  | "show-return" =>
    { st with md := { st.md with Flags := Set32 st.md.Flags MethViewShowReturn } }
  | "Args" =>
    match kv.2 with
    | PropVal.slice argv =>
      let r := ActionViewArgsValidate vtyp methTyp argv
      if r.1 then
        { st with md := { st.md with ArgProps := some argv }, log := st.log ++ r.2 }
      else
        { st with rval := false, log := st.log ++ r.2 }
    | _ =>
      { st with rval := false,
                log := st.log ++ MethViewErr (some vtyp) (Msg.argsNotSlice methNm) }
  | _ => st

/-- Go `ActionView`: configures the given action with the given props (`none` is
a nil `ki.Props`). -/
def ActionView (env : Env) (vtyp : RType) (ac : Action) (props : Option Props) :
    ActionRes :=
  if ac.Nm = "Close Window" then
    { ac := { ac with Shortcut := "Command+W", ActionSig := ac.ActionSig ++ [Slot.closeReq] },
      rval := true, log := [] }
  else
    let methNm := ac.Nm
    match vtyp.MethodByName methNm with
    | none =>
      { ac := ac, rval := false, log := MethViewErr (some vtyp) (Msg.methNotFound methNm) }
    | some methTyp =>
      if !methTyp.ValueOK then
        { ac := ac, rval := false, log := MethViewErr (some vtyp) (Msg.methNotValid methNm) }
      else
        let md : MethViewData :=
          { Val := vtyp, Method := methNm, MethTyp := methTyp, ArgProps := none,
            SpecProps := none, Desc := "", Flags := 0 }
        match props with
        | none =>
          { ac := { ac with Data := some md, ActionSig := ac.ActionSig ++ [Slot.methViewCall] },
            rval := true, log := [] }
        | some props =>
          let hasfv := Props.get props "FileView"
          let st := props.foldl (ActionViewProp env vtyp methNm methTyp)
            { ac := ac, md := md, rval := true, log := [] }
          if !st.rval then
            { ac := { st.ac with Data := some st.md }, rval := false, log := st.log }
          else
            match hasfv with
            | some fv =>
              match fv with
              | PropVal.props fvp =>
                { ac := { st.ac with Data := some { st.md with SpecProps := some fvp },
                                     ActionSig := st.ac.ActionSig ++ [Slot.methFileView] },
                  rval := st.rval, log := st.log }
              | _ =>
                { ac := { st.ac with Data := some st.md }, rval := false,
                  log := st.log ++ MethViewErr (some vtyp) (Msg.fileViewNotProps methNm) }
            | none =>
              { ac := { st.ac with Data := some st.md,
                                   ActionSig := st.ac.ActionSig ++ [Slot.methViewCall] },
                rval := true, log := st.log }

/-! ## ActionsView -/

/-- What `ActionsView` leaves behind: the parent action, the returned flag, the
log, and `calls`, the flags returned by the `ActionView` calls made during the
walk, in call order. -/
structure ActionsRes where
  ac : Action
  rval : Bool
  log : List LogEntry
  calls : List Bool

mutual
/-- Go `ActionsView`: processes properties `pp` for parent action `pa`: a
sub-menu of further actions, or a single action. -/
def ActionsView (env : Env) (vtyp : RType) (pa : Action) (pp : PropVal) : ActionsRes :=
  let pa := { pa with Text := env.CamelText pa.Nm }
  match pp with
  | PropVal.slice pv =>
    ActionsViewRange env vtyp pv { ac := pa, rval := true, log := [], calls := [] }
  | PropVal.blank =>
    let r := ActionView env vtyp pa none
    { ac := r.ac, rval := if !r.rval then false else true, log := r.log, calls := [r.rval] }
  | PropVal.props p =>
    let r := ActionView env vtyp pa (some p)
    { ac := r.ac, rval := if !r.rval then false else true, log := r.log, calls := [r.rval] }
  | PropVal.str _ => { ac := pa, rval := true, log := [], calls := [] }
  | PropVal.other _ => { ac := pa, rval := true, log := [], calls := [] }
/-- The loop `for _, mm := range pv` of `ActionsView`, from state `st`. -/
def ActionsViewRange (env : Env) (vtyp : RType) (pv : List (String × PropVal))
    (st : ActionsRes) : ActionsRes :=
  match pv with
  | [] => st
  | mm :: rest =>
    if HasPrefix mm.1 "sep-" then
      ActionsViewRange env vtyp rest
        { st with ac := { st.ac with Menu := AddSeparator env st.ac.Menu mm.1 } }
    else
      let nac := (NewAction mm.1).SetAsMenu
      let r := ActionsView env vtyp nac mm.2
      ActionsViewRange env vtyp rest
        { ac := { st.ac with Menu := st.ac.Menu ++ [r.ac.toNode] },
          rval := if !r.rval then false else st.rval,
          log := st.log ++ r.log,
          calls := st.calls ++ r.calls }
end

/-! ## Looking up the registered properties -/

/-- Go `MethViewTypeProps`: the props and the type of `val`; `none` stands for
the result flag false (nil value, or no properties registered for the type),
in which case the callers use neither of the other results. -/
def MethViewTypeProps (val : Option RType) : Option (Props × RType) :=
  match val with
  | none => none
  | some vtyp =>
    match vtyp.Props with
    | none => none
    | some tpp => some (tpp, vtyp)

/-- Go `HasMainMenuView`: true if `val` has a MainMenu type property registered. -/
def HasMainMenuView (val : Option RType) : Bool :=
  match MethViewTypeProps val with
  | none => false
  | some (tpp, _) =>
    match SliceProps tpp "MainMenu" with
    | none => false
    | some _ => true

/-- Go `HasToolBarView`: true if `val` has a ToolBar type property registered. -/
def HasToolBarView (val : Option RType) : Bool :=
  match MethViewTypeProps val with
  | none => false
  | some (tpp, _) =>
    match SliceProps tpp "ToolBar" with
    | none => false
    | some _ => true

/-! ## ToolBarView -/

/-- Go `gi.ToolBar`: its children. -/
structure ToolBar where
  Kids : List Node

/-- Modelled from the spec: `ki.Node.AddNewChild` is not under src/; it adds a
new child of the given type and name after the existing children. -/
def ToolBar.AddNewChild (tb : ToolBar) (kid : Node) : ToolBar :=
  { tb with Kids := tb.Kids ++ [kid] }

/-- What `ToolBarView` leaves behind: the toolbar, the returned flag, the log. -/
structure ToolBarRes where
  tb : ToolBar
  rval : Bool
  log : List LogEntry

/-- The loop `for _, te := range tp` of `ToolBarView`, from state `st`. -/
def ToolBarViewRange (env : Env) (vtyp : RType) (tp : PropSlice) (st : ToolBarRes) :
    ToolBarRes :=
  match tp with
  | [] => st
  | te :: rest =>
    if HasPrefix te.1 "sep-" then
      ToolBarViewRange env vtyp rest
        { st with tb := st.tb.AddNewChild (Node.separator te.1 false) }
    else
      let r := ActionsView env vtyp (NewAction te.1) te.2
      ToolBarViewRange env vtyp rest
        { tb := st.tb.AddNewChild r.ac.toNode,
          rval := if !r.rval then false else st.rval,
          log := st.log ++ r.log }

/-- Go `ToolBarView`: configures the toolbar according to the "ToolBar"
properties registered on the type of `val`; returns false on errors. -/
def ToolBarView (env : Env) (val : Option RType) (tb : ToolBar) : ToolBarRes :=
  match MethViewTypeProps val with
  | none => { tb := tb, rval := false, log := [] }
  | some (tpp, vtyp) =>
    match SliceProps tpp "ToolBar" with
    | none => { tb := tb, rval := false, log := [] }
    | some tp => ToolBarViewRange env vtyp tp { tb := tb, rval := true, log := [] }

/-! ## MainMenuView -/

/-- Go `gi.MenuBar`: its `*gi.Action` children. -/
structure MenuBar where
  Kids : List Action

/-- Modelled from the spec: `gi.MenuBar.ConfigMenus` is not under src/; it
configures one Action child per menu name, in the order of the names. -/
def MenuBar.ConfigMenus (_mbar : MenuBar) (mnms : List String) : MenuBar :=
  { Kids := mnms.map NewAction }

/-- What `MainMenuView` leaves behind: the menu bar, the returned flag, the log. -/
structure MainMenuRes where
  mbar : MenuBar
  rval : Bool
  log : List LogEntry

/-- The loop `for mmi, mm := range mp` of `MainMenuView`, from index `mmi` and
state `st`; `none` when `mbar.KnownChild(mmi).(*gi.Action)` fails. -/
def MainMenuViewRange (env : Env) (vtyp : RType) (mmi : Nat) (mp : PropSlice)
    (st : MainMenuRes) : Option MainMenuRes :=
  match mp with
  | [] => some st
  | mm :: rest =>
    match st.mbar.Kids[mmi]? with
    | none => none
    | some ma =>
      if mm.1 = "AppMenu" then
        MainMenuViewRange env vtyp (mmi + 1) rest
          { st with mbar := { Kids := st.mbar.Kids.set mmi
                                { ma with Menu := ma.Menu ++ env.AppMenu } } }
      else
        let edit : Action × List LogEntry :=
          if mm.1 = "Edit" then
            match mm.2 with
            | PropVal.str ms =>
              if ms = "Copy Cut Paste" then
                ({ ma with Menu := ma.Menu ++ env.CopyCutPaste }, [])
              else
                (ma, MethViewErr (some vtyp) (Msg.editSpecial ms))
            | _ => (ma, [])
          else (ma, [])
        let r := ActionsView env vtyp edit.1 mm.2
        MainMenuViewRange env vtyp (mmi + 1) rest
          { mbar := { Kids := st.mbar.Kids.set mmi r.ac },
            rval := if !r.rval then false else st.rval,
            log := st.log ++ edit.2 ++ r.log }

/-- Go `MainMenuView`: configures the menu bar according to the "MainMenu"
properties registered on the type of `val`; documented to return false on
errors. The closing `win.MainMenuUpdated()` does not touch the result. -/
def MainMenuView (env : Env) (val : Option RType) (mbar : MenuBar) : Option MainMenuRes :=
  match MethViewTypeProps val with
  | none => some { mbar := mbar, rval := false, log := [] }
  | some (tpp, vtyp) =>
    match SliceProps tpp "MainMenu" with
    | none => some { mbar := mbar, rval := false, log := [] }
    | some mp =>
      let mnms := mp.map (fun mm => if mm.1 = "AppMenu" then env.AppName else mm.1)
      let mbar := mbar.ConfigMenus mnms
      MainMenuViewRange env vtyp 0 mp { mbar := mbar, rval := true, log := [] }

/-! ## Method callbacks -/

/-- A `reflect.Value` made for argument number `ai` of type `atyp`:
`reflect.New(atyp)`, a pointer to fresh storage, or the `Elem()` of that
pointer, the storage itself. -/
inductive RValue where
  | new (ai : Nat) (atyp : String)
  | elem (ai : Nat) (atyp : String)
  deriving DecidableEq, Repr

/-- Go `av.Elem()` for a pointer value made by `reflect.New`. -/
def RValue.Elem : RValue → RValue
  | RValue.new ai atyp => RValue.elem ai atyp
  | RValue.elem ai atyp => RValue.elem ai atyp

/-- Go `v.Type().String()`: the pointer type for `reflect.New(atyp)`, `atyp`
for its element. -/
def RValue.Typ : RValue → String
  | RValue.new _ atyp => "*" ++ atyp
  | RValue.elem _ atyp => atyp

/-- A Go `interface{}` stored as the default of an argument: nil, a property
value, or the value of the named field of the receiver. -/
inductive Iface where
  | nil
  | prop (v : PropVal)
  | fieldValue (field : String)

/-- Go `ArgData`: the relevant data for each arg. -/
structure ArgData where
  Val : RValue
  Name : String
  Desc : String
  Default : Iface

/-- Go `MethViewFieldValue`: a reflect.Value for the given field name, checking
safely (none, with a line logged, if not found). -/
def MethViewFieldValue (vval : RType) (field : String) : Option String × List LogEntry :=
  if vval.Fields.contains field then
    (some field, [])
  else
    (none, [LogEntry.direct (Msg.fieldNotFound field vval.NonPtrName)])

/-- State of the `range apv` loop of `MethViewArgData`. -/
structure ArgLoop where
  ad : ArgData
  log : List LogEntry

/-- One iteration of `for pk, pv := range apv` in `MethViewArgData`; `none`
when the type assertion `pv.(string)` fails. -/
def MethViewArgProp (env : Env) (md : MethViewData) (st : ArgLoop) (kv : String × PropVal) :
    Option ArgLoop :=
  match kv.1 with
  | "FileView" => some st
  | "SliceViewSelect" => some st
  | "desc" => some { st with ad := { st.ad with Desc := env.ToString kv.2 } }
  | "default" => some { st with ad := { st.ad with Default := Iface.prop kv.2 } }
  | "default-field" =>
    match kv.2 with
    | PropVal.str field =>
      let r := MethViewFieldValue md.Val field
      match r.1 with
      | some flv =>
        some { ad := { st.ad with Default := Iface.fieldValue flv }, log := st.log ++ r.2 }
      | none => some { st with log := st.log ++ r.2 }
    | _ => none
  | _ => some st

/-- The body of the loop over the arguments in `MethViewArgData` at index `ai`:
the ArgData, the call argument and the lines logged; `none` when `mtyp.In`,
`md.ArgProps[ai]` or a type assertion fails. -/
def MethViewArgAt (env : Env) (md : MethViewData) (ai : Nat) :
    Option (ArgData × RValue × List LogEntry) :=
  match md.MethTyp.In[1 + ai]? with
  | none => none
  | some atyp =>
    let av := RValue.new ai atyp
    let ad : ArgData := { Val := av, Name := "", Desc := "", Default := Iface.nil }
    let arg := av.Elem
    match (md.ArgProps.getD [])[ai]? with
    | none => none
    | some aps =>
      let ad := { ad with Name := aps.1 }
      match aps.2 with
      | PropVal.props apv =>
        (apv.foldlM (MethViewArgProp env md) { ad := ad, log := [] }).map
          (fun st => (st.ad, arg, st.log))
      | _ => some (ad, arg, [])

/-- What `MethViewArgData` returns: the arg data, the call arguments, the
flag, and the lines logged. -/
structure ArgDataRes where
  ads : List ArgData
  args : List RValue
  ok : Bool
  log : List LogEntry

/-- The loop `for ai := 0; ai < narg; ai++` of `MethViewArgData`, as a fold
over the indexes. -/
def MethViewArgRange (env : Env) (md : MethViewData) (idxs : List Nat) :
    Option (List ArgData × List RValue × List LogEntry) :=
  idxs.foldlM
    (fun st ai => (MethViewArgAt env md ai).map
      (fun r => (st.1 ++ [r.1], st.2.1 ++ [r.2.1], st.2.2 ++ r.2.2)))
    ([], [], [])

/-- Go `MethViewArgData`: gets the arg data for the method args, documented to
return false if errors; `none` when the run stops in a run-time panic. -/
def MethViewArgData (env : Env) (md : MethViewData) : Option ArgDataRes :=
  let narg : Int := md.MethTyp.NumIn - 1
  if narg < 0 then
    none
  else
    (MethViewArgRange env md (List.range narg.toNat)).map
      (fun st => { ads := st.1, args := st.2.1, ok := true, log := st.2.2 })

/-- Go `xt.AssignableTo(targ)` on the string forms of the types: identical
types are assignable, for distinct types the environment decides. -/
def AssignableTo (env : Env) (xt targ : String) : Bool :=
  xt == targ || env.AssignableTo xt targ

/-- Whether `md.MethVal.Call(args)` gets past the checks that
`reflect.Value.Call` makes before it runs the function, `m` being the method
and `args` the arguments (the receiver is bound, so the parameters are
`m.In` without its head). With `n` the number of fixed parameters, Call
panics when there are fewer than `n` arguments, when the function is not
variadic and there are more than `n`, when one of the first `n` arguments is
not assignable to its parameter type, or when a further argument is not
assignable to the element type of the variadic parameter. -/
def CallAccepts (env : Env) (m : Method) (args : List RValue) : Bool :=
  let params := m.In.drop 1
  match m.VariadicElem with
  | none =>
    args.length == params.length &&
      (List.zip args params).all (fun ap => AssignableTo env ap.1.Typ ap.2)
  | some elem =>
    let n := params.length - 1
    decide (n ≤ args.length) &&
      (List.zip (args.take n) params).all (fun ap => AssignableTo env ap.1.Typ ap.2) &&
      (args.drop n).all (fun a => AssignableTo env a.Typ elem)

/-- What `MethViewCallMeth` does, in order: the call `md.MethVal.Call(args)`
that runs the method (`none` for nil args), the panic of `Call` when it
refuses the arguments before running the method, the prompt dialog showing
the return value, or the failure of `rv[0]`. -/
inductive CallEffect where
  | call (args : Option (List RValue))
  | callPanic
  | promptDialog (title prompt : String) (ok cancel : Bool)
  | indexPanic
  deriving DecidableEq, Repr

/-- Go `MethViewCallMeth`: calls the method with the given args and processes
the results as specified in the MethViewData; nothing follows a panic of
`Call`. -/
def MethViewCallMeth (env : Env) (md : MethViewData) (args : Option (List RValue)) :
    List CallEffect :=
  if !CallAccepts env md.MethTyp (args.getD []) then
    [CallEffect.callPanic]
  else
    [CallEffect.call args] ++
      (if Has32 md.Flags MethViewShowReturn then
        match md.MethTyp.Out[0]? with
        | some rv0 => [CallEffect.promptDialog (md.Method ++ " Result") rv0 true false]
        | none => [CallEffect.indexPanic]
      else [])

/-- What `MethViewCall` does when the action fires, in order: something done
at once, a line logged, a dialog opened together with its callback (from the
signal the dialog reports to what the callback does), or a run-time panic. -/
inductive Effect where
  | now (e : CallEffect)
  | logged (e : LogEntry)
  | promptDialog (title prompt : String) (ok cancel : Bool) (fn : Int → List CallEffect)
  | argViewDialog (ads : List ArgData) (title prompt : String) (fn : Int → List CallEffect)
  | panic

/-- Go `MethViewCall`: the receiver func for MethView actions that call a
method, `ac` being the sending action. -/
def MethViewCall (env : Env) (ac : Action) : List Effect :=
  match ac.Data with
  | none => [Effect.panic]
  | some md =>
    match md.ArgProps with
    | none =>
      if Has32 md.Flags MethViewConfirm then
        [Effect.promptDialog ac.Text md.Desc true true
          (fun sig => if sig = env.DialogAccepted then MethViewCallMeth env md none else [])]
      else
        (MethViewCallMeth env md none).map Effect.now
    | some _ =>
      match MethViewArgData env md with
      | none => [Effect.panic]
      | some r =>
        if !r.ok then
          r.log.map Effect.logged
        else
          r.log.map Effect.logged ++
            [Effect.argViewDialog r.ads ac.Text md.Desc
              (fun sig => if sig = env.DialogAccepted then MethViewCallMeth env md (some r.args)
                          else [])]

/-- Whether the effect is a call of the target method. -/
def CallEffect.isCall : CallEffect → Bool
  | CallEffect.call _ => true
  | _ => false

/-- What `MethViewCall` does at once, outside any dialog callback. -/
def nowEffects : List Effect → List CallEffect
  | [] => []
  | Effect.now e :: rest => e :: nowEffects rest
  | _ :: rest => nowEffects rest

/-- The calls of the target method made at once, outside any dialog callback. -/
def immediateCalls : List Effect → List CallEffect
  | [] => []
  | Effect.now e :: rest => (if e.isCall then [e] else []) ++ immediateCalls rest
  | _ :: rest => immediateCalls rest

/-- The calls of the target method made by the dialog callbacks when the
dialogs report signal `sig`. -/
def callbackCalls (sig : Int) : List Effect → List CallEffect
  | [] => []
  | Effect.promptDialog _ _ _ _ fn :: rest =>
    (fn sig).filter CallEffect.isCall ++ callbackCalls sig rest
  | Effect.argViewDialog _ _ _ fn :: rest =>
    (fn sig).filter CallEffect.isCall ++ callbackCalls sig rest
  | _ :: rest => callbackCalls sig rest

/-! ## StructView.ConfigStructGrid -/

/-- A flattened field of the viewed struct as `kit.FlatFieldsValueFunc` hands
it to its callback: the `reflect.StructField` name and tag (key, value pairs). -/
structure StructField where
  Name : String
  Tag : List (String × String)

/-- A `ValueView` after `SetStructValue`: what `vv.WidgetType()` returns and
the field it represents (`vvb.Field`). -/
structure ValueView where
  WidgetTyp : String
  Field : StructField

/-- A child widget of the struct grid: its type, name, label text and tooltip,
the properties set with `SetProp`, and the value view that configured it
(`vv.ConfigWidget(widg)`). -/
structure Widget where
  Typ : String
  Nm : String
  Text : String
  Tooltip : String
  Props : List (String × String)
  View : Option ValueView

/-- Go `gi.KiT_Label`. -/
def KiT_Label : String := "Label"

/-- Go `gi.Frame` as far as `ConfigStructGrid` touches it: layout, stripes, the
style settings made on it in order, and its children. -/
structure Frame where
  Lay : String
  Stripes : String
  Styling : List String
  Kids : List Widget

/-- A child of the StructView frame: a `*gi.Frame`, or a node of another type. -/
inductive SVChild where
  | frame (Nm : String) (f : Frame)
  | other (Typ Nm : String)

/-- Go `Nm` of a child. -/
def SVChild.Nm : SVChild → String
  | SVChild.frame nm _ => nm
  | SVChild.other _ nm => nm

/-- The (type, name) list for a list of field views: a Label "label-Name"
followed by the widget "value-Name" for each. -/
def configOfViews : List ValueView → List (String × String)
  | [] => []
  | vv :: rest =>
    (KiT_Label, "label-" ++ vv.Field.Name) :: (vv.WidgetTyp, "value-" ++ vv.Field.Name) ::
      configOfViews rest

/-! ## Sample data -/

/-- A sample environment. -/
def sampleEnv : Env :=
  { AppName := "app", CamelText := fun s => s, ToString := fun _ => "",
    AssignableTo := fun _ _ => false, DialogAccepted := 0, AppMenu := [],
    CopyCutPaste := [], MenuSepHoriz := true }

/-- A sample type with one method `Save`, a "MainMenu" whose "Edit" entry is a
string other than the standard one, and a "ToolBar" property slice. -/
def sampleType : RType :=
  { Name := "*T", NonPtrName := "T",
    Methods := [{ Name := "Save", In := ["*T"], VariadicElem := none, Out := [], ValueOK := true }],
    Fields := ["File"],
    Props := some [("MainMenu", PropVal.slice [("Edit", PropVal.str "Copy Cut")]),
                   ("ToolBar", PropVal.slice [("Save", PropVal.blank),
                                              ("sep-a", PropVal.blank),
                                              ("Load", PropVal.blank)])] }

/-- A sample type with registered properties but no "ToolBar" entry. -/
def sampleBare : RType :=
  { Name := "*B", NonPtrName := "B", Methods := [], Fields := [], Props := some [] }

/-- Method-view data for the method `Save` of the sample type, with the given
flags and no argument properties. -/
def sampleData (flags : Nat) : MethViewData :=
  { Val := sampleType, Method := "Save",
    MethTyp := { Name := "Save", In := ["*T"], VariadicElem := none, Out := [], ValueOK := true },
    ArgProps := none, SpecProps := none, Desc := "", Flags := flags }

/-- An action carrying `sampleData flags`. -/
def sampleAction (flags : Nat) : Action :=
  { NewAction "Save" with Data := some (sampleData flags) }

/-- Method-view data for a method `SaveAs(fname string)` of the sample type
whose one argument takes its default from the field `NoSuchField`, which the
type does not have. -/
def sampleArgData : MethViewData :=
  { Val := sampleType, Method := "SaveAs",
    MethTyp := { Name := "SaveAs", In := ["*T", "string"], VariadicElem := none, Out := [], ValueOK := true },
    ArgProps := some [("fname", PropVal.props [("default-field", PropVal.str "NoSuchField")])],
    SpecProps := none, Desc := "", Flags := 0 }

/-- A sample type with one method `SaveAs(fname string)` and a "ToolBar"
whose entry for it is a `ki.BlankProp`, so with no "Args" property. -/
def sampleArgType : RType :=
  { Name := "*U", NonPtrName := "U",
    Methods := [{ Name := "SaveAs", In := ["*U", "string"], VariadicElem := none,
                  Out := [], ValueOK := true }],
    Fields := [],
    Props := some [("ToolBar", PropVal.slice [("SaveAs", PropVal.blank)])] }

/-! ## ActionViewArgsValidate -/

/-- C4: `ActionViewArgsValidate` returns true if and only if the number of
Args property entries equals the number of inputs of the method minus one
(the receiver); it logs a line exactly when it returns false. -/
theorem ActionViewArgsValidate_iff (vtyp : RType) (meth : Method) (argprops : PropSlice) :
    ((ActionViewArgsValidate vtyp meth argprops).1 = true ↔
      (meth.In.length : Int) - 1 = (argprops.length : Int)) ∧
    ((ActionViewArgsValidate vtyp meth argprops).1 = false ↔
      (ActionViewArgsValidate vtyp meth argprops).2 =
        [LogEntry.typed vtyp.Name
          (Msg.argsCount meth.Name ((meth.In.length : Int) - 1) (argprops.length : Int))]) := by
  unfold ActionViewArgsValidate Method.NumIn MethViewErr
  by_cases h : (meth.In.length : Int) - 1 = (argprops.length : Int)
  · simp [h]
  · simp [h]

/-! ## ActionView and ActionsView -/

/-- One iteration of the props loop of `ActionView` keeps the name of the action. -/
theorem ActionViewProp_Nm (env : Env) (vtyp : RType) (methNm : String) (methTyp : Method)
    (st : ActionLoop) (kv : String × PropVal) :
    (ActionViewProp env vtyp methNm methTyp st kv).ac.Nm = st.ac.Nm := by
  unfold ActionViewProp
  repeat' (first | rfl | split | (dsimp only; split))

/-- The props loop of `ActionView` keeps the name of the action. -/
theorem ActionView_foldl_Nm (env : Env) (vtyp : RType) (methNm : String) (methTyp : Method)
    (props : Props) (st : ActionLoop) :
    (props.foldl (ActionViewProp env vtyp methNm methTyp) st).ac.Nm = st.ac.Nm := by
  induction props generalizing st with
  | nil => rfl
  | cons kv rest ih => rw [List.foldl_cons, ih, ActionViewProp_Nm]

/-- Function `ActionView` keeps the name of the action. -/
theorem ActionView_Nm (env : Env) (vtyp : RType) (ac : Action) (props : Option Props) :
    (ActionView env vtyp ac props).ac.Nm = ac.Nm := by
  unfold ActionView
  repeat' (first | rfl | exact ActionView_foldl_Nm .. | split | (dsimp only; split))

/-- The loop of `ActionsView` changes nothing of the parent action but its menu. -/
theorem ActionsViewRange_Nm (env : Env) (vtyp : RType) (pv : List (String × PropVal))
    (st : ActionsRes) :
    (ActionsViewRange env vtyp pv st).ac.Nm = st.ac.Nm := by
  induction pv generalizing st with
  | nil => simp [ActionsViewRange]
  | cons mm rest ih =>
    rw [ActionsViewRange]
    by_cases h : HasPrefix mm.1 "sep-" = true
    · simp [h, ih]
    · simp [h, ih]

/-- Function `ActionsView` keeps the name of the parent action. -/
theorem ActionsView_Nm (env : Env) (vtyp : RType) (pa : Action) (pp : PropVal) :
    (ActionsView env vtyp pa pp).ac.Nm = pa.Nm := by
  cases pp with
  | slice pv => rw [ActionsView]; simp [ActionsViewRange_Nm]
  | blank => rw [ActionsView]; simp [ActionView_Nm]
  | props p => rw [ActionsView]; simp [ActionView_Nm]
  | str s => rw [ActionsView]
  | other r => rw [ActionsView]

mutual
/-- The flag returned by `ActionsView` is the conjunction of the flags of the
`ActionView` calls it made. -/
theorem ActionsView_rval_calls (env : Env) (vtyp : RType) (pa : Action) :
    (pp : PropVal) →
    (ActionsView env vtyp pa pp).rval = (ActionsView env vtyp pa pp).calls.all (fun c => c)
  | PropVal.slice pv => by
    rw [ActionsView]
    exact ActionsViewRange_rval_calls env vtyp pv _ rfl
  | PropVal.blank => by
    rw [ActionsView]
    cases (ActionView env vtyp { pa with Text := env.CamelText pa.Nm } none).rval <;> simp
  | PropVal.props p => by
    rw [ActionsView]
    cases (ActionView env vtyp { pa with Text := env.CamelText pa.Nm } (some p)).rval <;> simp
  | PropVal.str _ => by rw [ActionsView]; rfl
  | PropVal.other _ => by rw [ActionsView]; rfl
/-- The loop of `ActionsView` keeps the flag equal to the conjunction of the
flags of the `ActionView` calls made so far. -/
theorem ActionsViewRange_rval_calls (env : Env) (vtyp : RType) :
    (pv : List (String × PropVal)) → (st : ActionsRes) →
    st.rval = st.calls.all (fun c => c) →
    (ActionsViewRange env vtyp pv st).rval =
      (ActionsViewRange env vtyp pv st).calls.all (fun c => c)
  | [], st, h => by rw [ActionsViewRange]; exact h
  | mm :: rest, st, h => by
    rw [ActionsViewRange]
    by_cases hs : HasPrefix mm.1 "sep-" = true
    · simp only [hs, if_true]
      exact ActionsViewRange_rval_calls env vtyp rest _ h
    · simp only [hs]
      apply ActionsViewRange_rval_calls env vtyp rest
      have ih := ActionsView_rval_calls env vtyp (NewAction mm.1).SetAsMenu mm.2
      simp only [List.all_append, ← h, ← ih]
      cases (ActionsView env vtyp (NewAction mm.1).SetAsMenu mm.2).rval <;> simp
end

/-- The loop of `ToolBarView` adds one child per entry after the children
already there, in order. -/
theorem ToolBarViewRange_Kids (env : Env) (vtyp : RType) (tp : PropSlice) (st : ToolBarRes) :
    (ToolBarViewRange env vtyp tp st).tb.Kids =
      st.tb.Kids ++ tp.map (fun te =>
        if HasPrefix te.1 "sep-" then Node.separator te.1 false
        else (ActionsView env vtyp (NewAction te.1) te.2).ac.toNode) := by
  induction tp generalizing st with
  | nil => simp [ToolBarViewRange]
  | cons te rest ih =>
    rw [ToolBarViewRange]
    by_cases h : HasPrefix te.1 "sep-" = true
    · simp [h, ih, ToolBar.AddNewChild]
    · simp [h, ih, ToolBar.AddNewChild]

/-- The loop of `ToolBarView` returns true exactly when it started from true
and `ActionsView` returned true for every entry that is not a separator. -/
theorem ToolBarViewRange_rval (env : Env) (vtyp : RType) (tp : PropSlice) (st : ToolBarRes) :
    (ToolBarViewRange env vtyp tp st).rval =
      (st.rval && tp.all (fun te =>
        HasPrefix te.1 "sep-" || (ActionsView env vtyp (NewAction te.1) te.2).rval)) := by
  induction tp generalizing st with
  | nil => simp [ToolBarViewRange]
  | cons te rest ih =>
    rw [ToolBarViewRange]
    by_cases h : HasPrefix te.1 "sep-" = true
    · simp [h, ih]
    · rw [if_neg h]
      have h0 : HasPrefix te.1 "sep-" = false := by simpa using h
      simp only [ih, List.all_cons, h0, Bool.false_or]
      cases (ActionsView env vtyp (NewAction te.1) te.2).rval <;> cases st.rval <;> simp

/-- C2: for a value whose type has a registered "ToolBar" property slice `tp`,
`ToolBarView` adds exactly `len(tp)` children to the toolbar, in the order of
`tp`, the i-th child being named `tp[i].Name` and being a Separator with
`Horiz = false` if that name starts with "sep-" and otherwise the Action left
by `ActionsView`; it returns true if and only if `ActionsView` returned true
for every entry that is not a separator. -/
theorem ToolBarView_children (env : Env) (vtyp : RType) (tpp : Props) (tp : PropSlice)
    (tb : ToolBar) (hp : vtyp.Props = some tpp) (ht : SliceProps tpp "ToolBar" = some tp) :
    (ToolBarView env (some vtyp) tb).tb.Kids =
      tb.Kids ++ tp.map (fun te =>
        if HasPrefix te.1 "sep-" then Node.separator te.1 false
        else (ActionsView env vtyp (NewAction te.1) te.2).ac.toNode) ∧
    (ToolBarView env (some vtyp) tb).tb.Kids.length = tb.Kids.length + tp.length ∧
    (ToolBarView env (some vtyp) tb).tb.Kids.map Node.Nm =
      tb.Kids.map Node.Nm ++ tp.map Prod.fst ∧
    (ToolBarView env (some vtyp) tb).tb.Kids.map Node.isAction =
      tb.Kids.map Node.isAction ++ tp.map (fun te => !HasPrefix te.1 "sep-") ∧
    ((ToolBarView env (some vtyp) tb).rval = true ↔
      ∀ te ∈ tp, HasPrefix te.1 "sep-" = false →
        (ActionsView env vtyp (NewAction te.1) te.2).rval = true) := by
  have hT : ToolBarView env (some vtyp) tb =
      ToolBarViewRange env vtyp tp { tb := tb, rval := true, log := [] } := by
    simp [ToolBarView, MethViewTypeProps, hp, ht]
  have hK := ToolBarViewRange_Kids env vtyp tp { tb := tb, rval := true, log := [] }
  rw [hT]
  refine ⟨hK, ?_, ?_, ?_, ?_⟩
  · rw [hK]; simp
  · rw [hK, List.map_append, List.map_map]
    congr 1
    apply List.map_congr_left
    intro te _
    by_cases h : HasPrefix te.1 "sep-" = true
    · simp [h, Node.Nm]
    · simp [h, Action.toNode, Node.Nm, ActionsView_Nm, NewAction]
  · rw [hK, List.map_append, List.map_map]
    congr 1
    apply List.map_congr_left
    intro te _
    by_cases h : HasPrefix te.1 "sep-" = true
    · simp [h, Node.isAction]
    · simp [h, Action.toNode, Node.isAction]
  · rw [ToolBarViewRange_rval]
    simp only [Bool.true_and, List.all_eq_true, Bool.or_eq_true]
    constructor
    · intro h te hte hs
      rcases h te hte with h1 | h1
      · rw [hs] at h1; cases h1
      · exact h1
    · intro h te hte
      by_cases hs : HasPrefix te.1 "sep-" = true
      · exact Or.inl hs
      · exact Or.inr (h te hte (by simpa using hs))

/-- Witness for C2 on the sample type: three entries, the second a separator,
the third naming a method the type does not have. -/
theorem ToolBarView_children_witness :
    (ToolBarView sampleEnv (some sampleType) { Kids := [] }).tb.Kids.map Node.Nm =
      ["Save", "sep-a", "Load"] ∧
    (ToolBarView sampleEnv (some sampleType) { Kids := [] }).tb.Kids.map Node.isAction =
      [true, false, true] ∧
    (ToolBarView sampleEnv (some sampleType) { Kids := [] }).rval = false := by
  have h := ToolBarView_children sampleEnv sampleType
    [("MainMenu", PropVal.slice [("Edit", PropVal.str "Copy Cut")]),
     ("ToolBar", PropVal.slice [("Save", PropVal.blank), ("sep-a", PropVal.blank),
                                ("Load", PropVal.blank)])]
    [("Save", PropVal.blank), ("sep-a", PropVal.blank), ("Load", PropVal.blank)]
    { Kids := [] } rfl rfl
  exact ⟨h.2.2.1, h.2.2.2.1, by decide⟩

/-- C3: `HasToolBarView` is a sound guard for `ToolBarView`. When it is false
(nil value, no registered properties, or no "ToolBar" property slice)
`ToolBarView` returns false, logs nothing and leaves the toolbar as it was.
When it is true the property lookups of `ToolBarView` succeed and the loop
runs over every entry of the "ToolBar" slice, adding one child for each. -/
theorem HasToolBarView_guard (env : Env) (val : Option RType) (tb : ToolBar) :
    (HasToolBarView val = false →
      (ToolBarView env val tb).rval = false ∧ (ToolBarView env val tb).tb = tb ∧
      (ToolBarView env val tb).log = []) ∧
    (HasToolBarView val = true →
      ∃ vtyp tpp tp, val = some vtyp ∧ vtyp.Props = some tpp ∧
        SliceProps tpp "ToolBar" = some tp ∧
        ToolBarView env val tb =
          ToolBarViewRange env vtyp tp { tb := tb, rval := true, log := [] } ∧
        (ToolBarView env val tb).tb.Kids.length = tb.Kids.length + tp.length) := by
  cases val with
  | none => simp [HasToolBarView, ToolBarView, MethViewTypeProps]
  | some vtyp =>
    cases hp : vtyp.Props with
    | none => simp [HasToolBarView, ToolBarView, MethViewTypeProps, hp]
    | some tpp =>
      cases ht : SliceProps tpp "ToolBar" with
      | none => simp [HasToolBarView, ToolBarView, MethViewTypeProps, hp, ht]
      | some tp =>
        have hT : ToolBarView env (some vtyp) tb =
            ToolBarViewRange env vtyp tp { tb := tb, rval := true, log := [] } := by
          simp [ToolBarView, MethViewTypeProps, hp, ht]
        constructor
        · intro h
          simp [HasToolBarView, MethViewTypeProps, hp, ht] at h
        · intro _
          refine ⟨vtyp, tpp, tp, rfl, hp, ht, hT, ?_⟩
          rw [hT, ToolBarViewRange_Kids]
          simp

/-- Witness for C3: a nil value and a type without a "ToolBar" entry are
refused and leave the toolbar empty; the sample type passes the guard and all
three entries are processed. -/
theorem HasToolBarView_guard_witness :
    (ToolBarView sampleEnv none { Kids := [] }).rval = false ∧
    (ToolBarView sampleEnv (some sampleBare) { Kids := [] }).tb.Kids.length = 0 ∧
    (ToolBarView sampleEnv (some sampleType) { Kids := [] }).tb.Kids.length = 3 := by
  refine ⟨((HasToolBarView_guard sampleEnv none { Kids := [] }).1 rfl).1, ?_, ?_⟩
  · rw [((HasToolBarView_guard sampleEnv (some sampleBare) { Kids := [] }).1 rfl).2.1]
    rfl
  · obtain ⟨vtyp, tpp, tp, hv, hp, ht, _, hlen⟩ :=
      (HasToolBarView_guard sampleEnv (some sampleType) { Kids := [] }).2 rfl
    cases hv
    cases hp
    cases ht
    exact hlen

/-! ## MethViewCall -/

/-- Lines logged are not calls. -/
theorem immediateCalls_logged (log : List LogEntry) (rest : List Effect) :
    immediateCalls (log.map Effect.logged ++ rest) = immediateCalls rest := by
  induction log with
  | nil => rfl
  | cons e es ih => simpa [immediateCalls] using ih

/-- Lines logged open no dialog. -/
theorem callbackCalls_logged (sig : Int) (log : List LogEntry) (rest : List Effect) :
    callbackCalls sig (log.map Effect.logged ++ rest) = callbackCalls sig rest := by
  induction log with
  | nil => rfl
  | cons e es ih => simpa [callbackCalls] using ih

/-- The calls made at once by a list of immediate effects. -/
theorem immediateCalls_now (l : List CallEffect) :
    immediateCalls (l.map Effect.now) = l.filter CallEffect.isCall := by
  induction l with
  | nil => rfl
  | cons e es ih =>
    cases h : e.isCall <;> simp [immediateCalls, List.filter, h, ih]

/-- Immediate effects open no dialog. -/
theorem callbackCalls_now (sig : Int) (l : List CallEffect) :
    callbackCalls sig (l.map Effect.now) = [] := by
  induction l with
  | nil => rfl
  | cons e es ih => simpa [callbackCalls] using ih

/-- When `Call` accepts the arguments, `MethViewCallMeth` calls the method
exactly once, as its first step, with the given args. -/
theorem MethViewCallMeth_calls (env : Env) (md : MethViewData) (args : Option (List RValue))
    (hc : CallAccepts env md.MethTyp (args.getD []) = true) :
    (MethViewCallMeth env md args).filter CallEffect.isCall = [CallEffect.call args] ∧
    (MethViewCallMeth env md args).head? = some (CallEffect.call args) := by
  unfold MethViewCallMeth
  simp only [hc, Bool.not_true, Bool.false_eq_true, if_false]
  constructor
  · cases Has32 md.Flags MethViewShowReturn
    · simp [CallEffect.isCall]
    · cases md.MethTyp.Out[0]? <;> simp [CallEffect.isCall]
  · rfl

/-- When `Call` refuses the arguments, `MethViewCallMeth` stops in the panic
of `Call` and the method is not run. -/
theorem MethViewCallMeth_refused (env : Env) (md : MethViewData) (args : Option (List RValue))
    (hc : CallAccepts env md.MethTyp (args.getD []) = false) :
    MethViewCallMeth env md args = [CallEffect.callPanic] := by
  unfold MethViewCallMeth
  simp [hc]

/-- C6 (amended): `MethViewConfirm` confirms the action before proceeding. For
an action whose MethViewData has the `MethViewConfirm` flag set,
`MethViewCall` makes no call of the target method at once, and a dialog
callback makes none unless the dialog reports `DialogAccepted`; with nil
`ArgProps` and a method that `Call` accepts with no arguments, the accepted
prompt calls the method once. When `ArgProps` is nil, the flag is not set and
`Call` accepts the method with no arguments (it takes none beyond the
receiver), `MethViewCall` calls the method exactly once, as its first step,
with nil arguments, and opens no dialog that could call it again. -/
theorem MethViewCall_confirm (env : Env) (ac : Action) (md : MethViewData)
    (hd : ac.Data = some md) :
    (Has32 md.Flags MethViewConfirm = true →
      immediateCalls (MethViewCall env ac) = [] ∧
      (∀ sig : Int, sig ≠ env.DialogAccepted → callbackCalls sig (MethViewCall env ac) = []) ∧
      (md.ArgProps = none → CallAccepts env md.MethTyp [] = true →
        callbackCalls env.DialogAccepted (MethViewCall env ac) = [CallEffect.call none])) ∧
    (md.ArgProps = none → Has32 md.Flags MethViewConfirm = false →
      CallAccepts env md.MethTyp [] = true →
      immediateCalls (MethViewCall env ac) = [CallEffect.call none] ∧
      (MethViewCall env ac).head? = some (Effect.now (CallEffect.call none)) ∧
      ∀ sig : Int, callbackCalls sig (MethViewCall env ac) = []) := by
  constructor
  · intro hf
    cases ha : md.ArgProps with
    | none =>
      have hM : MethViewCall env ac =
          [Effect.promptDialog ac.Text md.Desc true true
            (fun sig => if sig = env.DialogAccepted then MethViewCallMeth env md none
                        else [])] := by
        simp [MethViewCall, hd, ha, hf]
      rw [hM]
      refine ⟨rfl, ?_, ?_⟩
      · intro sig hs
        simp [callbackCalls, hs]
      · intro _ hc
        simp [callbackCalls, (MethViewCallMeth_calls env md none hc).1]
    | some aps =>
      cases hr : MethViewArgData env md with
      | none =>
        have hM : MethViewCall env ac = [Effect.panic] := by
          simp [MethViewCall, hd, ha, hr]
        rw [hM]
        refine ⟨rfl, ?_, ?_⟩
        · intro sig _
          rfl
        · intro h
          cases h
      | some r =>
        by_cases hok : r.ok = true
        · have hM : MethViewCall env ac = r.log.map Effect.logged ++
              [Effect.argViewDialog r.ads ac.Text md.Desc
                (fun sig => if sig = env.DialogAccepted
                            then MethViewCallMeth env md (some r.args) else [])] := by
            simp [MethViewCall, hd, ha, hr, hok]
          rw [hM, immediateCalls_logged]
          refine ⟨rfl, ?_, ?_⟩
          · intro sig hs
            rw [callbackCalls_logged]
            simp [callbackCalls, hs]
          · intro h
            cases h
        · have hM : MethViewCall env ac = r.log.map Effect.logged := by
            simp [MethViewCall, hd, ha, hr, hok]
          rw [hM]
          have h1 := immediateCalls_logged r.log []
          have h2 := fun sig => callbackCalls_logged sig r.log []
          simp only [List.append_nil] at h1 h2
          refine ⟨by rw [h1]; rfl, ?_, ?_⟩
          · intro sig _
            rw [h2]
            rfl
          · intro h
            cases h
  · intro ha hf hc
    have hM : MethViewCall env ac = (MethViewCallMeth env md none).map Effect.now := by
      simp [MethViewCall, hd, ha, hf]
    rw [hM, immediateCalls_now]
    refine ⟨(MethViewCallMeth_calls env md none hc).1, ?_, ?_⟩
    · rw [List.head?_map, (MethViewCallMeth_calls env md none hc).2]
      rfl
    · intro sig
      exact callbackCalls_now sig _

/-- Witness for C6 (amended): with the confirm flag the sample action calls
nothing at once and nothing when its dialog reports signal 1 (not
`DialogAccepted`); without the flag it calls the method `Save`, which takes
no arguments, once and at once. -/
theorem MethViewCall_confirm_witness :
    immediateCalls (MethViewCall sampleEnv (sampleAction 1)) = [] ∧
    callbackCalls 1 (MethViewCall sampleEnv (sampleAction 1)) = [] ∧
    immediateCalls (MethViewCall sampleEnv (sampleAction 0)) = [CallEffect.call none] :=
  ⟨((MethViewCall_confirm sampleEnv (sampleAction 1) (sampleData 1) rfl).1 (by decide)).1,
   ((MethViewCall_confirm sampleEnv (sampleAction 1) (sampleData 1) rfl).1 (by decide)).2.1 1
      (by decide),
   ((MethViewCall_confirm sampleEnv (sampleAction 0) (sampleData 0) rfl).2 rfl
      (by decide) (by decide)).1⟩

/-- C6 as stated fails: for the sample type with the method
`SaveAs(fname string)` and a `ki.BlankProp` entry, `ActionView` succeeds and
leaves an action whose MethViewData has nil `ArgProps` and no confirm flag;
when that action fires, `MethViewCall` goes straight to
`md.MethVal.Call(nil)`, which panics for want of an argument, so the method is
not called. -/
theorem MethViewCall_missing_args_no_call :
    (ActionView sampleEnv sampleArgType (NewAction "SaveAs") none).rval = true ∧
    (ActionView sampleEnv sampleArgType (NewAction "SaveAs") none).ac.ActionSig =
      [Slot.methViewCall] ∧
    (ActionView sampleEnv sampleArgType (NewAction "SaveAs") none).ac.Data.map
        (fun md => (md.ArgProps.isNone, Has32 md.Flags MethViewConfirm)) =
      some (true, false) ∧
    nowEffects (MethViewCall sampleEnv
        (ActionView sampleEnv sampleArgType (NewAction "SaveAs") none).ac) =
      [CallEffect.callPanic] ∧
    immediateCalls (MethViewCall sampleEnv
        (ActionView sampleEnv sampleArgType (NewAction "SaveAs") none).ac) = [] := by
  decide

/-! ## MainMenuView -/

/-- C1: on the sample type, whose "MainMenu" has an "Edit" entry with the
string value "Copy Cut", `MainMenuView` reports the unrecognized string
through `MethViewErr` and still returns true. -/
theorem MainMenuView_edit_error_returns_true :
    (MainMenuView sampleEnv (some sampleType) { Kids := [] }).map
        (fun r => (r.rval, r.log)) =
      some (true, [LogEntry.typed "*T" (Msg.editSpecial "Copy Cut")]) := by
  decide

/-- The defect behind C1 for any type: when the "MainMenu" slice is a single
"Edit" entry whose string value is not "Copy Cut Paste", `MainMenuView` logs
the unrecognized string through `MethViewErr` and returns true. -/
theorem MainMenuView_edit_string (env : Env) (vtyp : RType) (tpp : Props) (ms : String)
    (mbar : MenuBar) (hp : vtyp.Props = some tpp)
    (hm : SliceProps tpp "MainMenu" = some [("Edit", PropVal.str ms)])
    (hne : ms ≠ "Copy Cut Paste") :
    (MainMenuView env (some vtyp) mbar).map (fun r => (r.rval, r.log)) =
      some (true, [LogEntry.typed vtyp.Name (Msg.editSpecial ms)]) := by
  have h1 : ¬ ("Edit" = "AppMenu") := by decide
  simp [MainMenuView, MethViewTypeProps, hp, hm, MainMenuViewRange, MenuBar.ConfigMenus, h1,
    hne, ActionsView, MethViewErr]

/-- Once the flag of the loop of `MainMenuView` is false it stays false: a
failing `ActionsView` for some entry makes `MainMenuView` return false. -/
theorem MainMenuViewRange_rval (env : Env) (vtyp : RType) (mp : PropSlice) (mmi : Nat)
    (st r : MainMenuRes) (h : MainMenuViewRange env vtyp mmi mp st = some r)
    (hr : r.rval = true) : st.rval = true := by
  induction mp generalizing mmi st with
  | nil =>
    simp only [MainMenuViewRange, Option.some.injEq] at h
    subst h
    exact hr
  | cons mm rest ih =>
    rw [MainMenuViewRange] at h
    cases hk : st.mbar.Kids[mmi]? with
    | none => simp [hk] at h
    | some ma =>
      simp only [hk] at h
      by_cases ha : mm.1 = "AppMenu"
      · rw [if_pos ha] at h
        have h2 := ih _ _ h
        exact h2
      · rw [if_neg ha] at h
        have h2 := ih _ _ h
        dsimp only at h2
        cases hs : st.rval with
        | true => rfl
        | false => simp [hs] at h2

/-! ## MethViewArgData -/

/-- One iteration of the props loop of `MethViewArgData` keeps the name and
the value of the arg data. -/
theorem MethViewArgProp_keeps (env : Env) (md : MethViewData) (st st1 : ArgLoop)
    (kv : String × PropVal) (h : MethViewArgProp env md st kv = some st1) :
    st1.ad.Name = st.ad.Name ∧ st1.ad.Val = st.ad.Val := by
  unfold MethViewArgProp at h
  repeat' (first
    | (cases h <;> exact ⟨rfl, rfl⟩)
    | split at h
    | (dsimp only at h; split at h))

/-- The props loop of `MethViewArgData` keeps the name and the value of the
arg data. -/
theorem MethViewArgProp_foldlM_keeps (env : Env) (md : MethViewData) (apv : Props)
    (st st1 : ArgLoop) (h : apv.foldlM (MethViewArgProp env md) st = some st1) :
    st1.ad.Name = st.ad.Name ∧ st1.ad.Val = st.ad.Val := by
  induction apv generalizing st with
  | nil =>
    simp only [List.foldlM_nil] at h
    cases h
    exact ⟨rfl, rfl⟩
  | cons kv rest ih =>
    rw [List.foldlM_cons] at h
    cases hk : MethViewArgProp env md st kv with
    | none => rw [hk] at h; cases h
    | some st2 =>
      rw [hk] at h
      have h1 := MethViewArgProp_keeps env md st st2 kv hk
      have h2 := ih st2 h
      exact ⟨h2.1.trans h1.1, h2.2.trans h1.2⟩

/-- The loop body of `MethViewArgData` at index `ai`, when it completes: the
name is that of `md.ArgProps[ai]`, the value is a pointer to the call
argument, and both indexes were in range. -/
theorem MethViewArgAt_spec (env : Env) (md : MethViewData) (ai : Nat)
    (r : ArgData × RValue × List LogEntry) (h : MethViewArgAt env md ai = some r) :
    ∃ atyp aps, md.MethTyp.In[1 + ai]? = some atyp ∧ (md.ArgProps.getD [])[ai]? = some aps ∧
      r.1.Name = aps.1 ∧ r.1.Val = RValue.new ai atyp ∧ r.2.1 = RValue.elem ai atyp := by
  unfold MethViewArgAt at h
  cases hin : md.MethTyp.In[1 + ai]? with
  | none => rw [hin] at h; cases h
  | some atyp =>
    cases hap : (md.ArgProps.getD [])[ai]? with
    | none => simp [hin, hap] at h
    | some aps =>
      refine ⟨atyp, aps, rfl, rfl, ?_⟩
      simp only [hin, hap] at h
      split at h
      · rename_i apv _
        cases hf : apv.foldlM (MethViewArgProp env md)
            { ad := { Val := RValue.new ai atyp, Name := aps.1, Desc := "",
                      Default := Iface.nil }, log := [] } with
        | none => rw [hf] at h; cases h
        | some st =>
          rw [hf] at h
          cases h
          have hk := MethViewArgProp_foldlM_keeps env md apv _ st hf
          exact ⟨hk.1, hk.2, rfl⟩
      · cases h
        exact ⟨rfl, rfl, rfl⟩

/-- The loop over the arguments of `MethViewArgData`, when it completes from
accumulated results `acc`: one ArgData and one call argument were added per
index, every index was in range of `md.ArgProps` and of the method inputs,
the names are those of `md.ArgProps`, and each value points at its call
argument. -/
theorem MethViewArgRange_foldlM (env : Env) (md : MethViewData) (idxs : List Nat)
    (acc st : List ArgData × List RValue × List LogEntry)
    (h : idxs.foldlM
      (fun st ai => (MethViewArgAt env md ai).map
        (fun r => (st.1 ++ [r.1], st.2.1 ++ [r.2.1], st.2.2 ++ r.2.2))) acc = some st) :
    st.1.length = acc.1.length + idxs.length ∧
    st.2.1.length = acc.2.1.length + idxs.length ∧
    (∀ ai ∈ idxs, ai < (md.ArgProps.getD []).length ∧ 1 + ai < md.MethTyp.In.length) ∧
    st.1.map (fun ad => ad.Name) =
      acc.1.map (fun ad => ad.Name) ++
        idxs.map (fun ai => (((md.ArgProps.getD [])[ai]?).map Prod.fst).getD "") ∧
    (acc.1.map (fun ad => ad.Val.Elem) = acc.2.1 →
      st.1.map (fun ad => ad.Val.Elem) = st.2.1) := by
  induction idxs generalizing acc with
  | nil =>
    simp only [List.foldlM_nil] at h
    cases h
    simp
  | cons ai rest ih =>
    rw [List.foldlM_cons] at h
    cases hk : MethViewArgAt env md ai with
    | none => simp [hk] at h
    | some r =>
      simp only [hk, Option.map_some'] at h
      obtain ⟨atyp, aps, hin, hap, hn, hv, ha⟩ := MethViewArgAt_spec env md ai r hk
      have h2 := ih _ h
      obtain ⟨l1, l2, hr, hnames, hvals⟩ := h2
      have hlt1 : ai < (md.ArgProps.getD []).length := by
        rcases List.getElem?_eq_some_iff.mp hap with ⟨hlt, _⟩
        exact hlt
      have hlt2 : 1 + ai < md.MethTyp.In.length := by
        rcases List.getElem?_eq_some_iff.mp hin with ⟨hlt, _⟩
        exact hlt
      refine ⟨?_, ?_, ?_, ?_, ?_⟩
      · simp only [List.length_append, List.length_cons, List.length_nil] at l1 ⊢
        omega
      · simp only [List.length_append, List.length_cons, List.length_nil] at l2 ⊢
        omega
      · intro aj hj
        rcases List.mem_cons.mp hj with hj | hj
        · subst hj
          exact ⟨hlt1, hlt2⟩
        · exact hr aj hj
      · rw [hnames]
        simp [hap, hn]
      · intro hacc
        apply hvals
        show List.map (fun ad => ad.Val.Elem) (acc.1 ++ [r.1]) = acc.2.1 ++ [r.2.1]
        rw [List.map_append, hacc, ha]
        simp only [List.map_cons, List.map_nil, hv]
        rfl

/-- Function `MethViewArgData` never returns false: whenever it returns, the flag is
true, whatever was logged. For a MethViewData whose `ArgProps` has exactly
`NumIn - 1` entries the two lists have that length, the names are those of
`ArgProps` in order, and each value points at its call argument. -/
theorem MethViewArgData_shape (env : Env) (md : MethViewData) (aps : PropSlice)
    (r : ArgDataRes) (ha : md.ArgProps = some aps)
    (hl : (aps.length : Int) = md.MethTyp.NumIn - 1)
    (hr : MethViewArgData env md = some r) :
    r.ok = true ∧ r.ads.length = aps.length ∧ r.args.length = aps.length ∧
    r.ads.map (fun ad => ad.Name) = aps.map Prod.fst ∧
    r.ads.map (fun ad => ad.Val.Elem) = r.args := by
  unfold MethViewArgData at hr
  simp only [← hl] at hr
  have hnn : ¬ ((aps.length : Int) < 0) := by omega
  simp only [hnn, if_false, Int.toNat_ofNat, MethViewArgRange] at hr
  cases hf : (List.range aps.length).foldlM
      (fun st ai => (MethViewArgAt env md ai).map
        (fun r => (st.1 ++ [r.1], st.2.1 ++ [r.2.1], st.2.2 ++ r.2.2)))
      (([], [], []) : List ArgData × List RValue × List LogEntry) with
  | none => simp [hf] at hr
  | some st =>
    simp only [hf, Option.map_some', Option.some.injEq] at hr
    subst hr
    obtain ⟨l1, l2, _, hnames, hvals⟩ := MethViewArgRange_foldlM env md _ _ st hf
    refine ⟨rfl, by simpa using l1, by simpa using l2, ?_, hvals rfl⟩
    simp only [List.map_nil, List.nil_append, ha, Option.getD_some] at hnames
    rw [hnames]
    apply List.ext_getElem
    · simp
    · intro i h1 h2
      simp only [List.length_map, List.length_range] at h1
      simp [List.getElem?_eq_getElem h1]

/-- C7: for the sample data, whose one argument names the default field
`NoSuchField` that the type does not have, `MethViewArgData` logs that the
field could not be found and still returns the flag true, with the arg data
of the one argument. -/
theorem MethViewArgData_missing_field_returns_true :
    (MethViewArgData sampleEnv sampleArgData).map
        (fun r => (r.ok, r.log, r.ads.map (fun ad => ad.Name), r.args)) =
      some (true, [LogEntry.direct (Msg.fieldNotFound "NoSuchField" "T")], ["fname"],
        [RValue.elem 0 "string"]) := by
  decide

/-! ## StructView.ConfigStructGrid -/

/-- The config list of an appended list of views. -/
theorem configOfViews_append (a b : List ValueView) :
    configOfViews (a ++ b) = configOfViews a ++ configOfViews b := by
  induction a with
  | nil => rfl
  | cons vv rest ih => simp [configOfViews, ih]

end Giv
